import Mathlib

/-!
Verification of the PalletPacking placement engine
(`src/packing/packing_engine.py` and its callers) against its
natural-language specification.

The discrete engine works on integer coordinates; we embed them as `Nat`.
The continuous engine works on real-valued coordinates; we embed them as `ℚ`.
The PCT environment classes (`PackingDiscrete` / `PackingContinuous`, their
`space` object with `drop_box_virtual`, `corner_positions`, `step`) are not
part of the repository snapshot under `src/`; where a claim depends on them
they are modelled from the spec, and each such definition carries a
`Modelled from the spec:` doc comment.
-/

namespace PalletPacking

/-- A box-extents triple `(x, y, z)` in the discrete engine. -/
abbrev Dims := Nat × Nat × Nat

/-- The height map over the container footprint: cell `(i, j)` holds the
current maximum stacked height there. -/
abbrev HeightMap := Nat → Nat → Nat

/-- A committed placement, as read back by the engine from
`env.space.boxes[-1]`: lower corner `(lx, ly, lz)` and placed extents
`(x, y, z)`. -/
structure PlacedBox where
  lx : Nat
  ly : Nat
  lz : Nat
  x : Nat
  y : Nat
  z : Nat
deriving DecidableEq, Repr

/-- The packing space: container dimensions `W × L × H`, the height map and
the list of committed boxes.  Owned by one session run. -/
structure Space where
  W : Nat
  L : Nat
  H : Nat
  hm : HeightMap
  boxes : List PlacedBox

/-- Maximum height currently present under the footprint
`[lx, lx+x) × [ly, ly+y)`.  Modelled from the spec: the box bottom rests at
the maximum height already present under its footprint (`drop_box_virtual`
of the PCT space, which is not under `src/`). -/
def maxUnder (h : HeightMap) (lx ly x y : Nat) : Nat :=
  ((List.range x).map fun i =>
    ((List.range y).map fun j => h (lx + i) (ly + j)).foldr max 0).foldr max 0

/-- Total of the height map over the whole container footprint; this is the
`np.sum(heightMap)` the heuristics score with. -/
def sumHM (W L : Nat) (h : HeightMap) : Nat :=
  ((List.range W).map fun i => ((List.range L).map fun j => h i j).sum).sum

/-- Modelled from the spec: `space.drop_box_virtual` of the PCT environment
(not under `src/`).  A non-mutating feasibility probe: the box must lie
fully inside the container on x/y, its bottom rests at the maximum height
already under its footprint, and it fails only if its top would exceed the
container height; on success it returns the projected height map after the
hypothetical placement. -/
def dropVirtual (sp : Space) (d : Dims) (pos : Nat × Nat) : Option HeightMap :=
  if pos.1 + d.1 ≤ sp.W ∧ pos.2 + d.2.1 ≤ sp.L ∧
      maxUnder sp.hm pos.1 pos.2 d.1 d.2.1 + d.2.2 ≤ sp.H then
    some fun i j =>
      if pos.1 ≤ i ∧ i < pos.1 + d.1 ∧ pos.2 ≤ j ∧ j < pos.2 + d.2.1 then
        maxUnder sp.hm pos.1 pos.2 d.1 d.2.1 + d.2.2
      else sp.hm i j
  else none

/-- Modelled from the spec: `env.step` committing a placement (PCT
environment code, not under `src/`).  Re-validates with the same feasibility
test, then mutates the height map and appends the placed box, whose global
`lz` is the pre-commit height under the footprint. -/
def commit (sp : Space) (d : Dims) (pos : Nat × Nat) : Option (Space × PlacedBox) :=
  match dropVirtual sp d pos with
  | none => none
  | some h2 =>
    let pb : PlacedBox :=
      ⟨pos.1, pos.2, maxUnder sp.hm pos.1 pos.2 d.1 d.2.1, d.1, d.2.1, d.2.2⟩
    some ({ sp with hm := h2, boxes := sp.boxes ++ [pb] }, pb)

/-- A corner candidate as returned by `env.corner_positions()`: the 6-tuple
`(xs, ys, zs, xe, ye, ze)` describing an axis-aligned free sub-volume
anchored at the corner `(xs, ys, zs)`. -/
structure Corner where
  xs : Nat
  ys : Nat
  zs : Nat
  xe : Nat
  ye : Nat
  ze : Nat
deriving DecidableEq, Repr

/-- The candidate box size the corner-height loop derives from a corner:
`x = xe - xs`, `y = ye - ys`, `z = ze - zs`. -/
def spans (c : Corner) : Dims := (c.xe - c.xs, c.ye - c.ys, c.ze - c.zs)

/-- Feasibility-and-score of one corner candidate, exactly as computed in
`_run_corner_height_algorithm`: infeasible candidates are skipped, feasible
ones get `score = xs + ys + 10 * sum(heightMap)`. -/
def feasScore (sp : Space) (c : Corner) : Option Nat :=
  (dropVirtual sp (spans c) (c.xs, c.ys)).map fun h =>
    c.xs + c.ys + 10 * sumHM sp.W sp.L h

/-- The selected placement: best box dims and the action coordinates
`(xs, ys)` (the code stores the action as `[0, xs, ys]`). -/
abbrev Choice := Dims × Nat × Nat

/-- The corner-height selection fold from `_run_corner_height_algorithm`:
`best_score` starts at `1e10`, `best_action` at "empty", and a candidate
replaces the incumbent only when its score is strictly lower. -/
def selectAux (sp : Space) : List Corner → Nat → Option Choice → Option Choice
  | [], _, acc => acc
  | c :: rest, best, acc =>
    match feasScore sp c with
    | none => selectAux sp rest best acc
    | some s =>
      if s < best then selectAux sp rest s (some (spans c, c.xs, c.ys))
      else selectAux sp rest best acc

/-- The corner-height candidate selection over the list returned by
`env.corner_positions()`. -/
def selectBest (sp : Space) (cands : List Corner) : Option Choice :=
  selectAux sp cands (10 ^ 10) none

/-- The axis-aligned orientation produced for rotation index `rot`,
following the tuple-unpacking assignments in `_run_random_algorithm`
(`rot == 1` does `y, x, z = next_box`, and so on). -/
def rotateExtents {A : Type} (rot : Nat) (nb : A × A × A) : A × A × A :=
  match rot with
  | 0 => (nb.1, nb.2.1, nb.2.2)
  | 1 => (nb.2.1, nb.1, nb.2.2)
  | 2 => (nb.2.1, nb.2.2, nb.1)
  | 3 => (nb.2.2, nb.2.1, nb.1)
  | 4 => (nb.1, nb.2.2, nb.2.1)
  | _ => (nb.2.2, nb.1, nb.2.1)

/-- Modelled from the spec: `env.orientation`, the number of rotation
indices enumerated (PCT environment code, not under `src/`).  Session
setting `1` is `No Rotation` and produces only the identity orientation;
setting `2` is `Full Rotation` and produces all 6. -/
def orientationCount (setting : Nat) : Nat :=
  if setting = 1 then 1 else 6

/-- The ordered list of orientations the random loop enumerates for a box. -/
def allowedRotations (setting : Nat) (nb : Dims) : List Dims :=
  (List.range (orientationCount setting)).map fun rot => rotateExtents rot nb

/-- The exhaustive discrete candidate set built by `_run_random_algorithm`:
`lx` ranges over `range(int(bin_size[0] - next_box[0] + 1))`, `ly` over
`range(int(bin_size[1] - next_box[1] + 1))` (both bounds taken from the
native, unrotated extents), rotation innermost, keeping the pairs that pass
the virtual drop. -/
def discreteCandidates (sp : Space) (nb : Dims) (orient : Nat) :
    List (Dims × Nat × Nat) :=
  (List.range (sp.W + 1 - nb.1)).flatMap fun lx =>
    (List.range (sp.L + 1 - nb.2.1)).flatMap fun ly =>
      (List.range orient).filterMap fun rot =>
        let d := rotateExtents rot nb
        (dropVirtual sp d (lx, ly)).map fun _ => (d, lx, ly)

/-- One session box: stable id and native extents, in session `order`. -/
structure SBox where
  id : Nat
  dims : Dims
deriving DecidableEq, Repr

/-- One per-box outcome record appended to `box_results`. -/
structure BoxResult where
  id : Nat
  isPacked : Bool
  pos : Option (Nat × Nat × Nat)
  dims : Dims
deriving DecidableEq, Repr

/-- The unpacked record with null position the engine appends when a box is
not placed. -/
def mkUnpacked (b : SBox) : BoxResult :=
  ⟨b.id, false, none, b.dims⟩

/-- The packed record read back from the last committed box. -/
def mkPacked (b : SBox) (pb : PlacedBox) : BoxResult :=
  ⟨b.id, true, some (pb.lx, pb.ly, pb.lz), (pb.x, pb.y, pb.z)⟩

/-- What one loop iteration's `try` body can end with: an unexpected per-box
exception, no feasible candidate, a successful `env.step`, or a failed
`env.step`. -/
inductive EvalOut where
  | err : EvalOut
  | noCandidate : EvalOut
  | placed : Space → PlacedBox → EvalOut
  | stepFailed : EvalOut

/-- One iteration of the corner-height loop body: corners from the
generator, selection by `selectBest`, then `env.step` on the winner.
`gen` stands for `env.corner_positions()` (PCT code, not under `src/`);
`exc idx` models whether an unexpected exception interrupts the evaluation
of the box at index `idx` (caught by the per-box `except` handler). -/
def cornerEval (gen : Space → List Corner) (exc : Nat → Bool)
    (idx : Nat) (sp : Space) (_nb : Dims) : EvalOut :=
  if exc idx then .err
  else
    match selectBest sp (gen sp) with
    | none => .noCandidate
    | some (d, px, py) =>
      match commit sp d (px, py) with
      | some (sp2, pb) => .placed sp2 pb
      | none => .stepFailed

/-- One iteration of the random loop body in discrete mode: the exhaustive
candidate set, then a uniformly drawn index (`np.random.randint`), modelled
by the injected source `pick` reduced modulo the candidate count. -/
def randomEval (exc : Nat → Bool) (pick : Nat → Nat) (orient : Nat)
    (idx : Nat) (sp : Space) (nb : Dims) : EvalOut :=
  if exc idx then .err
  else
    let cands := discreteCandidates sp nb orient
    match cands with
    | [] => .noCandidate
    | c0 :: rest2 =>
      let c := (c0 :: rest2).getD (pick idx % (c0 :: rest2).length) c0
      match commit sp c.1 (c.2.1, c.2.2) with
      | some (sp2, pb) => .placed sp2 pb
      | none => .stepFailed

/-- The driving loop shared verbatim by the three `_run_*_algorithm`
methods: `fuel` is the remaining iteration budget (`max_iterations -
box_index`); when it runs out, or once a box has no feasible candidate
(`done = True`), every remaining box is appended as unpacked with null
position.  Returns the ordered `box_results` and the number of loop
iterations actually attempted. -/
def engineLoopAux (eval : Nat → Space → Dims → EvalOut) :
    Nat → Nat → Space → List SBox → List BoxResult × Nat
  | _, 0, _, rest => (rest.map mkUnpacked, 0)
  | _, _ + 1, _, [] => ([], 0)
  | idx, fuel + 1, sp, b :: rest =>
    match eval idx sp b.dims with
    | .err =>
      let r := engineLoopAux eval (idx + 1) fuel sp rest
      (mkUnpacked b :: r.1, r.2 + 1)
    | .noCandidate => (mkUnpacked b :: rest.map mkUnpacked, 1)
    | .placed sp2 pb =>
      let r := engineLoopAux eval (idx + 1) fuel sp2 rest
      (mkPacked b pb :: r.1, r.2 + 1)
    | .stepFailed =>
      let r := engineLoopAux eval (idx + 1) fuel sp rest
      (mkUnpacked b :: r.1, r.2 + 1)

/-- `_run_corner_height_algorithm`: the driving loop with the corner-height
evaluator and the `min(len(boxes), 50)` iteration ceiling. -/
def runCornerHeightLoop (gen : Space → List Corner) (exc : Nat → Bool)
    (boxes : List SBox) (sp : Space) : List BoxResult × Nat :=
  engineLoopAux (cornerEval gen exc) 0 (min boxes.length 50) sp boxes

/-- `_run_random_algorithm` in discrete mode: the driving loop with the
random evaluator and the `min(len(boxes), 50)` iteration ceiling. -/
def runRandomLoop (exc : Nat → Bool) (pick : Nat → Nat) (orient : Nat)
    (boxes : List SBox) (sp : Space) : List BoxResult × Nat :=
  engineLoopAux (randomEval exc pick orient) 0 (min boxes.length 50) sp boxes

/-! ### Fallback results (`_create_fallback_results`) -/

/-- A session box with real-valued extents, as stored by the web layer. -/
structure QBox where
  id : Nat
  x : ℚ
  y : ℚ
  z : ℚ
deriving DecidableEq, Repr

/-- A per-box outcome with real-valued position and dimensions, as built by
`_create_fallback_results`. -/
structure QBoxResult where
  id : Nat
  isPacked : Bool
  pos : Option (ℚ × ℚ × ℚ)
  dims : ℚ × ℚ × ℚ
deriving DecidableEq, Repr

/-- The body of the fallback `for i, box in enumerate(boxes)` loop: the
first `packedCount` boxes get the synthesized position
`(i % 3, i // 3, 0.0)`, the rest are unpacked with null position. -/
def fallbackAux (packedCount : Nat) : Nat → List QBox → List QBoxResult
  | _, [] => []
  | i, b :: rest =>
    (if i < packedCount then
      ⟨b.id, true, some ((i % 3 : Nat), (i / 3 : Nat), 0), (b.x, b.y, b.z)⟩
    else
      ⟨b.id, false, none, (b.x, b.y, b.z)⟩) :: fallbackAux packedCount (i + 1) rest

/-- `PackingEngine._create_fallback_results`: the degraded-mode result when
environment setup fails, with `packed_count = min(len(boxes), max(1,
len(boxes) // 2))`. -/
def createFallbackResults (boxes : List QBox) : List QBoxResult :=
  fallbackAux (min boxes.length (max 1 (boxes.length / 2))) 0 boxes

/-! ### Mode decision and algorithm dispatch
(`setup_environment`, `run_simulation`) -/

/-- Python's `float.is_integer` on an exactly represented rational. -/
def isIntegral (q : ℚ) : Bool := q.den == 1

/-- The item set actually given to the environment: the session boxes in
order, or the default `[(1,1,1), (2,2,2), (3,3,3)]` when the session has
none. -/
def effectiveItemSet (items : List (ℚ × ℚ × ℚ)) : List (ℚ × ℚ × ℚ) :=
  if items.isEmpty then [(1, 1, 1), (2, 2, 2), (3, 3, 3)] else items

/-- The discrete/continuous decision of `setup_environment`: `is_discrete`
starts `True`, is cleared if any pallet dimension is non-integral, and is
cleared if any box of the item set has a non-integral extent. -/
def setupIsDiscrete (w l h : ℚ) (items : List (ℚ × ℚ × ℚ)) : Bool :=
  (isIntegral w && isIntegral l && isIntegral h) &&
    (effectiveItemSet items).all fun b =>
      isIntegral b.1 && isIntegral b.2.1 && isIntegral b.2.2

/-- Which environment class `setup_environment` instantiates. -/
inductive EnvKind where
  | discrete : EnvKind
  | continuous : EnvKind
deriving DecidableEq, Repr

/-- `PackingDiscrete` is created exactly when `is_discrete` holds,
`PackingContinuous` otherwise. -/
def envKindOf (isDiscrete : Bool) : EnvKind :=
  if isDiscrete then .discrete else .continuous

/-- The per-run search path `run_simulation` dispatches to. -/
inductive AlgPath where
  | cornerDiscrete : AlgPath
  | cornerContinuous : AlgPath
  | randomPath : AlgPath
deriving DecidableEq, Repr

/-- The dispatch in `run_simulation`: `corner_height` (and any unknown
algorithm name) splits on `is_discrete`; `random` has a single entry
point. -/
def runSimulationPath (algorithm : String) (isDiscrete : Bool) : AlgPath :=
  if algorithm = "corner_height" then
    if isDiscrete then .cornerDiscrete else .cornerContinuous
  else if algorithm = "random" then .randomPath
  else if isDiscrete then .cornerDiscrete else .cornerContinuous

/-! ### Continuous mode (`ℚ`-valued coordinates) -/

/-- A committed placement in the continuous space. -/
structure QPlaced where
  lx : ℚ
  ly : ℚ
  lz : ℚ
  x : ℚ
  y : ℚ
  z : ℚ
deriving DecidableEq, Repr

/-- The continuous packing space: container size and committed boxes. -/
structure QSpace where
  W : ℚ
  L : ℚ
  H : ℚ
  boxes : List QPlaced

/-- Modelled from the spec: the maximum occupied height under the footprint
`[lx, lx+x) × [ly, ly+y)` in the continuous space (the PCT continuous
space is not under `src/`).  Zero when nothing overlaps the footprint. -/
def maxUnderQ (sp : QSpace) (lx ly x y : ℚ) : ℚ :=
  sp.boxes.foldr
    (fun b acc =>
      if b.lx < lx + x ∧ lx < b.lx + b.x ∧ b.ly < ly + y ∧ ly < b.ly + b.y then
        max acc (b.lz + b.z)
      else acc) 0

/-- Modelled from the spec: the continuous `drop_box_virtual` feasibility
test (PCT continuous space, not under `src/`): nonnegative position, fully
inside the container on x/y, and the resting top not above the container
height. -/
def dropVirtualQ (sp : QSpace) (d : ℚ × ℚ × ℚ) (pos : ℚ × ℚ) : Bool :=
  decide (0 ≤ pos.1 ∧ 0 ≤ pos.2 ∧ pos.1 + d.1 ≤ sp.W ∧ pos.2 + d.2.1 ≤ sp.L ∧
    maxUnderQ sp pos.1 pos.2 d.1 d.2.1 + d.2.2 ≤ sp.H)

/-- One sampling attempt of the continuous branch of
`_run_random_algorithm`, for one rotation and one drawn position `(u, v)`
(standing for the `np.random.uniform` draws): the rotated extents are
computed, the sampling ranges are `max(0, bin_size[0] - x)` and
`max(0, bin_size[1] - y)`, and the attempt is skipped — producing no
candidate — whenever either range maximum is `≤ 0`. -/
def contSampleCandidate (sp : QSpace) (nb : ℚ × ℚ × ℚ) (rot : Nat)
    (u v : ℚ) : Option ((ℚ × ℚ × ℚ) × ℚ × ℚ) :=
  let d := rotateExtents rot nb
  let maxLx := max 0 (sp.W - d.1)
  let maxLy := max 0 (sp.L - d.2.1)
  if maxLx ≤ 0 ∨ maxLy ≤ 0 then none
  else
    if dropVirtualQ sp d (u, v) then some (d, u, v) else none

/-! ### Helper lemmas about the driving loop -/

lemma length_engineLoopAux (eval : Nat → Space → Dims → EvalOut) :
    ∀ (bs : List SBox) (idx fuel : Nat) (sp : Space),
      (engineLoopAux eval idx fuel sp bs).1.length = bs.length := by
  intro bs
  induction bs with
  | nil => intro idx fuel sp; cases fuel <;> simp [engineLoopAux]
  | cons b rest ih =>
    intro idx fuel sp
    cases fuel with
    | zero => simp [engineLoopAux]
    | succ f =>
      simp only [engineLoopAux]
      cases eval idx sp b.dims <;> simp [ih]

lemma attempts_engineLoopAux (eval : Nat → Space → Dims → EvalOut) :
    ∀ (bs : List SBox) (idx fuel : Nat) (sp : Space),
      (engineLoopAux eval idx fuel sp bs).2 ≤ fuel := by
  intro bs
  induction bs with
  | nil => intro idx fuel sp; cases fuel <;> simp [engineLoopAux]
  | cons b rest ih =>
    intro idx fuel sp
    cases fuel with
    | zero => simp [engineLoopAux]
    | succ f =>
      simp only [engineLoopAux]
      cases eval idx sp b.dims
      case err => have := ih (idx + 1) f sp; simpa using Nat.add_le_add_right this 1
      case noCandidate => simp
      case placed sp2 pb => have := ih (idx + 1) f sp2; simpa using Nat.add_le_add_right this 1
      case stepFailed => have := ih (idx + 1) f sp; simpa using Nat.add_le_add_right this 1

lemma get_engineLoopAux_beyond (eval : Nat → Space → Dims → EvalOut) :
    ∀ (bs : List SBox) (idx fuel : Nat) (sp : Space) (i : Nat), fuel ≤ i →
      (engineLoopAux eval idx fuel sp bs).1.get? i = (bs.get? i).map mkUnpacked := by
  intro bs
  induction bs with
  | nil => intro idx fuel sp i hi; cases fuel <;> simp [engineLoopAux]
  | cons b rest ih =>
    intro idx fuel sp i hi
    cases fuel with
    | zero =>
      simp only [engineLoopAux]
      cases i <;> simp [List.getElem?_map]
    | succ f =>
      obtain ⟨j, rfl⟩ : ∃ j, i = j + 1 := ⟨i - 1, by omega⟩
      have hj : f ≤ j := by omega
      simp only [engineLoopAux]
      cases eval idx sp b.dims
      case err => simpa using ih (idx + 1) f sp j hj
      case noCandidate => simp [List.getElem?_map]
      case placed sp2 pb => simpa using ih (idx + 1) f sp2 j hj
      case stepFailed => simpa using ih (idx + 1) f sp j hj

/-! ### Helper lemmas about the corner-height selection fold -/

lemma selectAux_acc (sp : Space) :
    ∀ (cands : List Corner) (best : Nat) (acc : Option Choice),
      selectAux sp cands best acc =
        match selectAux sp cands best none with
        | none => acc
        | some x => some x := by
  intro cands
  induction cands with
  | nil => intro best acc; simp [selectAux]
  | cons c rest ih =>
    intro best acc
    cases hfs : feasScore sp c with
    | none => simp only [selectAux, hfs]; exact ih best acc
    | some s =>
      by_cases hs : s < best
      · simp only [selectAux, hfs, if_pos hs]
        rw [ih s (some (spans c, c.xs, c.ys))]
        cases selectAux sp rest s none <;> simp
      · simp only [selectAux, hfs, if_neg hs]; exact ih best acc

lemma selectAux_characterization (sp : Space) :
    ∀ (cands : List Corner) (best : Nat),
      (selectAux sp cands best none = none ∧
        ∀ c ∈ cands, ∀ s, feasScore sp c = some s → best ≤ s) ∨
      (∃ pre c post s, cands = pre ++ c :: post ∧ feasScore sp c = some s ∧
        s < best ∧ selectAux sp cands best none = some (spans c, c.xs, c.ys) ∧
        (∀ c2 ∈ pre, ∀ s2, feasScore sp c2 = some s2 → s2 < best → s < s2) ∧
        (∀ c2 ∈ post, ∀ s2, feasScore sp c2 = some s2 → s ≤ s2)) := by
  intro cands
  induction cands with
  | nil => intro best; left; exact ⟨rfl, by simp⟩
  | cons c rest ih =>
    intro best
    cases hfs : feasScore sp c with
    | none =>
      have hstep : selectAux sp (c :: rest) best none = selectAux sp rest best none := by
        simp [selectAux, hfs]
      rcases ih best with ⟨hnone, hall⟩ | ⟨pre, c1, post, s1, heq, hfs1, hlt, hres, hpre, hpost⟩
      · left
        refine ⟨hstep.trans hnone, ?_⟩
        intro c2 hc2 s2 hfs2
        rcases List.mem_cons.mp hc2 with rfl | hc2
        · rw [hfs] at hfs2; cases hfs2
        · exact hall c2 hc2 s2 hfs2
      · right
        refine ⟨c :: pre, c1, post, s1, by simp [heq], hfs1, hlt,
          hstep.trans hres, ?_, hpost⟩
        intro c2 hc2 s2 hfs2 hs2
        rcases List.mem_cons.mp hc2 with rfl | hc2
        · rw [hfs] at hfs2; cases hfs2
        · exact hpre c2 hc2 s2 hfs2 hs2
    | some s =>
      by_cases hs : s < best
      · have hstep : selectAux sp (c :: rest) best none =
            selectAux sp rest s (some (spans c, c.xs, c.ys)) := by
          simp [selectAux, hfs, hs]
        have hacc := selectAux_acc sp rest s (some (spans c, c.xs, c.ys))
        rcases ih s with ⟨hnone, hall⟩ | ⟨pre, c1, post, s1, heq, hfs1, hlt, hres, hpre, hpost⟩
        · right
          refine ⟨[], c, rest, s, by simp, hfs, hs, ?_, by simp, hall⟩
          rw [hstep, hacc, hnone]
        · right
          refine ⟨c :: pre, c1, post, s1, by simp [heq], hfs1, by omega, ?_, ?_, hpost⟩
          · rw [hstep, hacc, hres]
          · intro c2 hc2 s2 hfs2 hs2
            rcases List.mem_cons.mp hc2 with rfl | hc2
            · rw [hfs] at hfs2
              injection hfs2 with h2
              omega
            · by_cases h3 : s2 < s
              · exact hpre c2 hc2 s2 hfs2 h3
              · omega
      · have hstep : selectAux sp (c :: rest) best none = selectAux sp rest best none := by
          simp [selectAux, hfs, hs]
        rcases ih best with ⟨hnone, hall⟩ | ⟨pre, c1, post, s1, heq, hfs1, hlt, hres, hpre, hpost⟩
        · left
          refine ⟨hstep.trans hnone, ?_⟩
          intro c2 hc2 s2 hfs2
          rcases List.mem_cons.mp hc2 with rfl | hc2
          · rw [hfs] at hfs2; injection hfs2 with h2; omega
          · exact hall c2 hc2 s2 hfs2
        · right
          refine ⟨c :: pre, c1, post, s1, by simp [heq], hfs1, hlt,
            hstep.trans hres, ?_, hpost⟩
          intro c2 hc2 s2 hfs2 hs2
          rcases List.mem_cons.mp hc2 with rfl | hc2
          · rw [hfs] at hfs2; injection hfs2 with h2; omega
          · exact hpre c2 hc2 s2 hfs2 hs2

/-! ### Bounding the corner-height score -/

lemma list_sum_le_length_mul {l : List Nat} {b : Nat} (h : ∀ x ∈ l, x ≤ b) :
    l.sum ≤ l.length * b := by
  induction l with
  | nil => simp
  | cons x xs ih =>
    have hx := h x (List.mem_cons_self x xs)
    have hxs := ih fun y hy => h y (List.mem_cons_of_mem _ hy)
    simp only [List.sum_cons, List.length_cons]
    calc x + xs.sum ≤ b + xs.length * b := Nat.add_le_add hx hxs
      _ = (xs.length + 1) * b := by ring

lemma sumHM_le {W L H : Nat} {h : HeightMap} (hb : ∀ i j, h i j ≤ H) :
    sumHM W L h ≤ W * L * H := by
  unfold sumHM
  have hlen : ((List.range W).map fun i =>
      ((List.range L).map fun j => h i j).sum).length = W := by simp
  have houter : ∀ x ∈ (List.range W).map fun i =>
      ((List.range L).map fun j => h i j).sum, x ≤ L * H := by
    intro x hx
    obtain ⟨i, _, rfl⟩ := List.mem_map.mp hx
    have hinlen : ((List.range L).map fun j => h i j).length = L := by simp
    have := list_sum_le_length_mul (l := (List.range L).map fun j => h i j)
      (b := H) ?_
    · rw [hinlen] at this; exact this
    · intro y hy
      obtain ⟨j, _, rfl⟩ := List.mem_map.mp hy
      exact hb i j
  have := list_sum_le_length_mul houter
  rw [hlen] at this
  calc sumHM W L h ≤ W * (L * H) := this
    _ = W * L * H := by ring

lemma dropVirtual_some {sp : Space} {d : Dims} {pos : Nat × Nat} {h2 : HeightMap}
    (h : dropVirtual sp d pos = some h2) :
    pos.1 + d.1 ≤ sp.W ∧ pos.2 + d.2.1 ≤ sp.L ∧
      maxUnder sp.hm pos.1 pos.2 d.1 d.2.1 + d.2.2 ≤ sp.H ∧
      ∀ i j, h2 i j =
        if pos.1 ≤ i ∧ i < pos.1 + d.1 ∧ pos.2 ≤ j ∧ j < pos.2 + d.2.1 then
          maxUnder sp.hm pos.1 pos.2 d.1 d.2.1 + d.2.2
        else sp.hm i j := by
  unfold dropVirtual at h
  split at h
  case isTrue hc =>
    injection h with h
    exact ⟨hc.1, hc.2.1, hc.2.2, fun i j => by rw [← h]⟩
  case isFalse => cases h

lemma feasScore_lt_threshold {sp : Space} (hW : sp.W ≤ 100) (hL : sp.L ≤ 100)
    (hH : sp.H ≤ 100) (hhm : ∀ i j, sp.hm i j ≤ sp.H) {c : Corner} {s : Nat}
    (hs : feasScore sp c = some s) : s < 10 ^ 10 := by
  unfold feasScore at hs
  cases hdv : dropVirtual sp (spans c) (c.xs, c.ys) with
  | none => rw [hdv] at hs; cases hs
  | some h2 =>
    rw [hdv] at hs
    simp only [Option.map_some', Option.some.injEq] at hs
    obtain ⟨hx, hy, hz, hmap⟩ := dropVirtual_some hdv
    have hcell : ∀ i j, h2 i j ≤ sp.H := by
      intro i j
      rw [hmap i j]
      split
      · exact hz
      · exact hhm i j
    have hsum : sumHM sp.W sp.L h2 ≤ sp.W * sp.L * sp.H := sumHM_le hcell
    have hxs : c.xs ≤ sp.W := le_trans (Nat.le_add_right _ _) hx
    have hys : c.ys ≤ sp.L := le_trans (Nat.le_add_right _ _) hy
    have hWLH : sp.W * sp.L * sp.H ≤ 1000000 := by
      calc sp.W * sp.L * sp.H ≤ 100 * 100 * 100 :=
        Nat.mul_le_mul (Nat.mul_le_mul hW hL) hH
        _ = 1000000 := by norm_num
    omega

/-- A selected placement always comes from one of the enumerated corners,
with dims equal to that corner's spans and the action at its `(xs, ys)`. -/
lemma selectBest_mem {sp : Space} {cands : List Corner} {d : Dims} {px py : Nat}
    (h : selectBest sp cands = some (d, px, py)) :
    ∃ c ∈ cands, d = spans c ∧ px = c.xs ∧ py = c.ys ∧
      (feasScore sp c).isSome := by
  unfold selectBest at h
  rcases selectAux_characterization sp cands (10 ^ 10) with
    ⟨hnone, _⟩ | ⟨pre, c, post, s, heq, hfs, _, hres, _, _⟩
  · rw [hnone] at h; cases h
  · rw [hres] at h
    injection h with h
    have h1 : spans c = d := congrArg Prod.fst h
    have h2 : c.xs = px := congrArg (fun t => t.2.1) h
    have h3 : c.ys = py := congrArg (fun t => t.2.2) h
    exact ⟨c, by simp [heq], h1.symm, h2.symm, h3.symm, by rw [hfs]; rfl⟩

/-- A successful commit places a box whose extents are exactly the
requested dims. -/
lemma commit_dims {sp : Space} {d : Dims} {pos : Nat × Nat} {sp2 : Space}
    {pb : PlacedBox} (h : commit sp d pos = some (sp2, pb)) :
    (pb.x, pb.y, pb.z) = d := by
  unfold commit at h
  cases hdv : dropVirtual sp d pos with
  | none => rw [hdv] at h; cases h
  | some h2 =>
    rw [hdv] at h
    injection h with h
    have hpb : pb = (⟨pos.1, pos.2, maxUnder sp.hm pos.1 pos.2 d.1 d.2.1,
        d.1, d.2.1, d.2.2⟩ : PlacedBox) := (congrArg Prod.snd h).symm
    rw [hpb]

/-! ## Claim theorems -/

/-- Claim C1: in the CornerHeight heuristic every feasible candidate corner
is scored `xs + ys + 10 * sum(projected height map)`, the candidate with
the lowest score is chosen, and on exact ties the first-encountered
candidate wins (a later candidate replaces the incumbent only when its
score is strictly lower).  The hypotheses record the validated dimension
range (models.py caps pallet dimensions at 100 and the height map never
exceeds the container height), under which every feasible score stays below
the `best_score = 1e10` sentinel. -/
theorem corner_height_score_first_min (sp : Space) (cands : List Corner)
    (hW : sp.W ≤ 100) (hL : sp.L ≤ 100) (hH : sp.H ≤ 100)
    (hhm : ∀ i j, sp.hm i j ≤ sp.H) :
    (selectBest sp cands = none ↔ ∀ c ∈ cands, feasScore sp c = none) ∧
    ∀ d px py, selectBest sp cands = some (d, px, py) →
      ∃ pre c post s, cands = pre ++ c :: post ∧ feasScore sp c = some s ∧
        d = spans c ∧ px = c.xs ∧ py = c.ys ∧
        (∀ c2 ∈ pre, ∀ s2, feasScore sp c2 = some s2 → s < s2) ∧
        (∀ c2 ∈ post, ∀ s2, feasScore sp c2 = some s2 → s ≤ s2) := by
  constructor
  · constructor
    · intro hnone c hc
      rcases selectAux_characterization sp cands (10 ^ 10) with
        ⟨_, h2⟩ | ⟨pre, c1, post, s1, heq, hfs1, _, hres, _, _⟩
      · cases hfs : feasScore sp c with
        | none => rfl
        | some s =>
          have hlow := feasScore_lt_threshold hW hL hH hhm hfs
          have := h2 c hc s hfs
          omega
      · unfold selectBest at hnone
        rw [hres] at hnone
        cases hnone
    · intro hall
      rcases selectAux_characterization sp cands (10 ^ 10) with
        ⟨h1, _⟩ | ⟨pre, c1, post, s1, heq, hfs1, _, _, _, _⟩
      · exact h1
      · have hc1 : c1 ∈ cands := by simp [heq]
        rw [hall c1 hc1] at hfs1
        cases hfs1
  · intro d px py h
    unfold selectBest at h
    rcases selectAux_characterization sp cands (10 ^ 10) with
      ⟨h1, _⟩ | ⟨pre, c1, post, s1, heq, hfs1, _, hres, hpre, hpost⟩
    · rw [h1] at h; cases h
    · rw [hres] at h
      injection h with h
      have h1 : spans c1 = d := congrArg Prod.fst h
      have h2 : c1.xs = px := congrArg (fun t => t.2.1) h
      have h3 : c1.ys = py := congrArg (fun t => t.2.2) h
      refine ⟨pre, c1, post, s1, heq, hfs1, h1.symm, h2.symm, h3.symm, ?_, hpost⟩
      intro c2 hc2 s2 hfs2
      exact hpre c2 hc2 s2 hfs2 (feasScore_lt_threshold hW hL hH hhm hfs2)

/-- Witness for C1 on a concrete container with a score tie: two corners at
`(0,0)` with identical scores, the first-enumerated one wins. -/
theorem corner_height_score_first_min_witness :
    ((3 ≤ 100) ∧ (3 ≤ 100) ∧ (3 ≤ 100)) ∧
    ((selectBest ⟨3, 3, 3, fun _ _ => 0, []⟩
        [⟨0, 0, 0, 1, 1, 1⟩, ⟨0, 0, 1, 1, 1, 2⟩] = none ↔
      ∀ c ∈ [(⟨0, 0, 0, 1, 1, 1⟩ : Corner), ⟨0, 0, 1, 1, 1, 2⟩],
        feasScore ⟨3, 3, 3, fun _ _ => 0, []⟩ c = none) ∧
    ∀ d px py, selectBest ⟨3, 3, 3, fun _ _ => 0, []⟩
        [⟨0, 0, 0, 1, 1, 1⟩, ⟨0, 0, 1, 1, 1, 2⟩] = some (d, px, py) →
      ∃ pre c post s,
        [(⟨0, 0, 0, 1, 1, 1⟩ : Corner), ⟨0, 0, 1, 1, 1, 2⟩] = pre ++ c :: post ∧
        feasScore ⟨3, 3, 3, fun _ _ => 0, []⟩ c = some s ∧
        d = spans c ∧ px = c.xs ∧ py = c.ys ∧
        (∀ c2 ∈ pre, ∀ s2, feasScore ⟨3, 3, 3, fun _ _ => 0, []⟩ c2 = some s2 →
          s < s2) ∧
        (∀ c2 ∈ post, ∀ s2, feasScore ⟨3, 3, 3, fun _ _ => 0, []⟩ c2 = some s2 →
          s ≤ s2)) :=
  ⟨⟨by norm_num, by norm_num, by norm_num⟩,
    corner_height_score_first_min ⟨3, 3, 3, fun _ _ => 0, []⟩
      [⟨0, 0, 0, 1, 1, 1⟩, ⟨0, 0, 1, 1, 1, 2⟩]
      (by norm_num) (by norm_num) (by norm_num) (fun i j => Nat.zero_le _)⟩

/-- Claim C2: every run terminates; it attempts at most
`min(box_count, 50)` loop iterations regardless of feasibility, the result
covers every box, and every box at an index at or beyond the ceiling is
recorded unpacked with null position.  Stated for the corner-height loop
and the discrete random loop, which share the driving loop verbatim. -/
theorem engine_iteration_ceiling (gen : Space → List Corner) (exc : Nat → Bool)
    (pick : Nat → Nat) (orient : Nat) (boxes : List SBox) (sp : Space) :
    (runCornerHeightLoop gen exc boxes sp).2 ≤ min boxes.length 50 ∧
    (runCornerHeightLoop gen exc boxes sp).1.length = boxes.length ∧
    (∀ i, min boxes.length 50 ≤ i →
      (runCornerHeightLoop gen exc boxes sp).1.get? i =
        (boxes.get? i).map mkUnpacked) ∧
    (runRandomLoop exc pick orient boxes sp).2 ≤ min boxes.length 50 ∧
    (runRandomLoop exc pick orient boxes sp).1.length = boxes.length ∧
    (∀ i, min boxes.length 50 ≤ i →
      (runRandomLoop exc pick orient boxes sp).1.get? i =
        (boxes.get? i).map mkUnpacked) :=
  ⟨attempts_engineLoopAux _ boxes 0 _ sp,
    length_engineLoopAux _ boxes 0 _ sp,
    fun i hi => get_engineLoopAux_beyond _ boxes 0 _ sp i hi,
    attempts_engineLoopAux _ boxes 0 _ sp,
    length_engineLoopAux _ boxes 0 _ sp,
    fun i hi => get_engineLoopAux_beyond _ boxes 0 _ sp i hi⟩

/-- Witness for C2 on a 51-box session: at most 50 iterations are
attempted and box index 50 is recorded unpacked. -/
theorem engine_iteration_ceiling_witness :
    (runCornerHeightLoop (fun _ => []) (fun _ => false)
      (List.replicate 51 ⟨0, (1, 1, 1)⟩) ⟨5, 5, 5, fun _ _ => 0, []⟩).2 ≤
        min (List.replicate 51 (⟨0, (1, 1, 1)⟩ : SBox)).length 50 ∧
    (runCornerHeightLoop (fun _ => []) (fun _ => false)
      (List.replicate 51 ⟨0, (1, 1, 1)⟩) ⟨5, 5, 5, fun _ _ => 0, []⟩).1.get? 50 =
      ((List.replicate 51 (⟨0, (1, 1, 1)⟩ : SBox)).get? 50).map mkUnpacked :=
  ⟨(engine_iteration_ceiling (fun _ => []) (fun _ => false) (fun _ => 0) 6
      (List.replicate 51 ⟨0, (1, 1, 1)⟩) ⟨5, 5, 5, fun _ _ => 0, []⟩).1,
    (engine_iteration_ceiling (fun _ => []) (fun _ => false) (fun _ => 0) 6
      (List.replicate 51 ⟨0, (1, 1, 1)⟩) ⟨5, 5, 5, fun _ _ => 0, []⟩).2.2.1 50
      (by simp)⟩

/-- Claim C3: when the heuristic finds no feasible candidate for the
current box, that box is recorded unpacked with null position and the
signal is terminal: every later box is appended unpacked and the loop
performs no further evaluation (exactly one more iteration is counted and
the remaining records are produced by `map mkUnpacked` alone).  Stated for
both the corner-height evaluator and the random evaluator. -/
theorem no_feasible_candidate_terminal (gen : Space → List Corner)
    (exc : Nat → Bool) (pick : Nat → Nat) (orient : Nat) (idx fuel : Nat)
    (sp : Space) (b : SBox) (rest : List SBox) :
    (exc idx = false → selectBest sp (gen sp) = none →
      engineLoopAux (cornerEval gen exc) idx (fuel + 1) sp (b :: rest) =
        (mkUnpacked b :: rest.map mkUnpacked, 1)) ∧
    (exc idx = false → discreteCandidates sp b.dims orient = [] →
      engineLoopAux (randomEval exc pick orient) idx (fuel + 1) sp (b :: rest) =
        (mkUnpacked b :: rest.map mkUnpacked, 1)) := by
  constructor
  · intro he hn
    simp [engineLoopAux, cornerEval, he, hn]
  · intro he hn
    simp [engineLoopAux, randomEval, he, hn]

/-- Witness for C3: a box too large for the container makes both loops
record it and its successor unpacked with no further work. -/
theorem no_feasible_candidate_terminal_witness :
    ((fun _ : Nat => false) 0 = false) ∧
    engineLoopAux (cornerEval (fun _ => []) (fun _ => false)) 0 2
        ⟨2, 2, 2, fun _ _ => 0, []⟩ [⟨0, (5, 5, 5)⟩, ⟨1, (1, 1, 1)⟩] =
      (mkUnpacked ⟨0, (5, 5, 5)⟩ :: [(⟨1, (1, 1, 1)⟩ : SBox)].map mkUnpacked, 1) ∧
    engineLoopAux (randomEval (fun _ => false) (fun _ => 0) 6) 0 2
        ⟨2, 2, 2, fun _ _ => 0, []⟩ [⟨0, (5, 5, 5)⟩, ⟨1, (1, 1, 1)⟩] =
      (mkUnpacked ⟨0, (5, 5, 5)⟩ :: [(⟨1, (1, 1, 1)⟩ : SBox)].map mkUnpacked, 1) :=
  ⟨rfl,
    (no_feasible_candidate_terminal (fun _ => []) (fun _ => false) (fun _ => 0) 6
      0 1 ⟨2, 2, 2, fun _ _ => 0, []⟩ ⟨0, (5, 5, 5)⟩ [⟨1, (1, 1, 1)⟩]).1
      rfl (by decide),
    (no_feasible_candidate_terminal (fun _ => []) (fun _ => false) (fun _ => 0) 6
      0 1 ⟨2, 2, 2, fun _ _ => 0, []⟩ ⟨0, (5, 5, 5)⟩ [⟨1, (1, 1, 1)⟩]).2
      rfl (by decide)⟩

/-- Claim C5: an unexpected exception while evaluating one box is caught
inside the loop, that box is recorded unpacked with null position, and the
loop proceeds to the next box; the run always completes with one record per
box. -/
theorem per_box_exception_caught (gen : Space → List Corner) (exc : Nat → Bool)
    (pick : Nat → Nat) (orient : Nat) (idx fuel : Nat) (sp : Space) (b : SBox)
    (rest : List SBox) (h : exc idx = true) :
    engineLoopAux (cornerEval gen exc) idx (fuel + 1) sp (b :: rest) =
      (mkUnpacked b ::
        (engineLoopAux (cornerEval gen exc) (idx + 1) fuel sp rest).1,
       (engineLoopAux (cornerEval gen exc) (idx + 1) fuel sp rest).2 + 1) ∧
    engineLoopAux (randomEval exc pick orient) idx (fuel + 1) sp (b :: rest) =
      (mkUnpacked b ::
        (engineLoopAux (randomEval exc pick orient) (idx + 1) fuel sp rest).1,
       (engineLoopAux (randomEval exc pick orient) (idx + 1) fuel sp rest).2 + 1) ∧
    (engineLoopAux (cornerEval gen exc) idx (fuel + 1) sp (b :: rest)).1.length =
      rest.length + 1 := by
  refine ⟨?_, ?_, ?_⟩
  · simp [engineLoopAux, cornerEval, h]
  · simp [engineLoopAux, randomEval, h]
  · rw [length_engineLoopAux]
    simp

/-- Witness for C5: with an exception injected at index 0 only, the first
box is recorded unpacked and the second box is still evaluated and
placed. -/
theorem per_box_exception_caught_witness :
    engineLoopAux
        (cornerEval (fun sp => [⟨0, 0, 0, sp.W, sp.L, sp.H⟩]) (fun i => i == 0))
        0 2 ⟨2, 2, 2, fun _ _ => 0, []⟩ [⟨0, (1, 1, 1)⟩, ⟨1, (1, 1, 1)⟩] =
      (mkUnpacked ⟨0, (1, 1, 1)⟩ ::
        (engineLoopAux
          (cornerEval (fun sp => [⟨0, 0, 0, sp.W, sp.L, sp.H⟩]) (fun i => i == 0))
          1 1 ⟨2, 2, 2, fun _ _ => 0, []⟩ [⟨1, (1, 1, 1)⟩]).1,
       (engineLoopAux
          (cornerEval (fun sp => [⟨0, 0, 0, sp.W, sp.L, sp.H⟩]) (fun i => i == 0))
          1 1 ⟨2, 2, 2, fun _ _ => 0, []⟩ [⟨1, (1, 1, 1)⟩]).2 + 1) ∧
    (engineLoopAux
        (cornerEval (fun sp => [⟨0, 0, 0, sp.W, sp.L, sp.H⟩]) (fun i => i == 0))
        1 1 ⟨2, 2, 2, fun _ _ => 0, []⟩ [⟨1, (1, 1, 1)⟩]).1 =
      [⟨1, true, some (0, 0, 0), (2, 2, 2)⟩] :=
  ⟨(per_box_exception_caught (fun sp => [⟨0, 0, 0, sp.W, sp.L, sp.H⟩])
      (fun i => i == 0) (fun _ => 0) 6 0 1 ⟨2, 2, 2, fun _ _ => 0, []⟩
      ⟨0, (1, 1, 1)⟩ [⟨1, (1, 1, 1)⟩] rfl).1,
    by decide⟩

/-- Positional description of `fallbackAux` output. -/
lemma fallbackAux_get (pc : Nat) :
    ∀ (bs : List QBox) (i0 k : Nat),
      (fallbackAux pc i0 bs).get? k = (bs.get? k).map fun b =>
        if i0 + k < pc then
          (⟨b.id, true, some ((((i0 + k) % 3 : Nat) : ℚ), (((i0 + k) / 3 : Nat) : ℚ), 0),
            (b.x, b.y, b.z)⟩ : QBoxResult)
        else ⟨b.id, false, none, (b.x, b.y, b.z)⟩ := by
  intro bs
  induction bs with
  | nil => intro i0 k; simp [fallbackAux]
  | cons b rest ih =>
    intro i0 k
    cases k with
    | zero => simp [fallbackAux]
    | succ k2 =>
      have h2 := ih (i0 + 1) k2
      rw [show i0 + 1 + k2 = i0 + (k2 + 1) from by omega] at h2
      simpa [fallbackAux] using h2

/-- Counterexample to C4: on a single-box session the fallback marks the
box packed at `(0, 0, 0)` even though the "first half" of a one-element
list is empty (`1 // 2 = 0`), because `packed_count = min(len, max(1,
len // 2))` is forced to at least 1. -/
theorem fallback_first_half_cex :
    createFallbackResults [⟨7, 1, 1, 1⟩] =
      [⟨7, true, some (0, 0, 0), (1, 1, 1)⟩] ∧
    [(⟨7, 1, 1, 1⟩ : QBox)].length / 2 = 0 := by
  constructor
  · rfl
  · rfl

/-- Claim C4 as amended: when environment setup fails, the fallback result
marks the first `min(n, max(1, n / 2))` boxes, by input order, packed at
the synthesized position `(i mod 3, i div 3, 0)`, and every remaining box
unpacked with null position (for `n ≥ 2` this is the first half,
`⌊n/2⌋`; a single box is nevertheless marked packed). -/
theorem fallback_packed_count (boxes : List QBox) (k : Nat) (b : QBox)
    (hk : boxes.get? k = some b) :
    (createFallbackResults boxes).get? k = some (
      if k < min boxes.length (max 1 (boxes.length / 2)) then
        ⟨b.id, true, some (((k % 3 : Nat) : ℚ), ((k / 3 : Nat) : ℚ), 0),
          (b.x, b.y, b.z)⟩
      else ⟨b.id, false, none, (b.x, b.y, b.z)⟩) := by
  unfold createFallbackResults
  rw [fallbackAux_get, hk]
  simp

/-- Witness for C4's amended claim on a 3-box session: box 0 is packed,
boxes 1 and 2 are unpacked. -/
theorem fallback_packed_count_witness :
    ((createFallbackResults [⟨0, 1, 1, 1⟩, ⟨1, 2, 2, 2⟩, ⟨2, 3, 3, 3⟩]).get? 0 =
      some (if 0 < min [(⟨0, 1, 1, 1⟩ : QBox), ⟨1, 2, 2, 2⟩, ⟨2, 3, 3, 3⟩].length
          (max 1 ([(⟨0, 1, 1, 1⟩ : QBox), ⟨1, 2, 2, 2⟩, ⟨2, 3, 3, 3⟩].length / 2)) then
        ⟨0, true, some (((0 % 3 : Nat) : ℚ), ((0 / 3 : Nat) : ℚ), 0), (1, 1, 1)⟩
      else ⟨0, false, none, (1, 1, 1)⟩)) ∧
    ((createFallbackResults [⟨0, 1, 1, 1⟩, ⟨1, 2, 2, 2⟩, ⟨2, 3, 3, 3⟩]).get? 2 =
      some (if 2 < min [(⟨0, 1, 1, 1⟩ : QBox), ⟨1, 2, 2, 2⟩, ⟨2, 3, 3, 3⟩].length
          (max 1 ([(⟨0, 1, 1, 1⟩ : QBox), ⟨1, 2, 2, 2⟩, ⟨2, 3, 3, 3⟩].length / 2)) then
        ⟨2, true, some (((2 % 3 : Nat) : ℚ), ((2 / 3 : Nat) : ℚ), 0), (3, 3, 3)⟩
      else ⟨2, false, none, (3, 3, 3)⟩)) :=
  ⟨fallback_packed_count [⟨0, 1, 1, 1⟩, ⟨1, 2, 2, 2⟩, ⟨2, 3, 3, 3⟩] 0
      ⟨0, 1, 1, 1⟩ rfl,
    fallback_packed_count [⟨0, 1, 1, 1⟩, ⟨1, 2, 2, 2⟩, ⟨2, 3, 3, 3⟩] 2
      ⟨2, 3, 3, 3⟩ rfl⟩

/-- Claim C6: the discrete/continuous mode is decided once at setup —
discrete iff the container dimensions and every box's extents are all
integral — and the decided mode selects the environment class and, for the
corner-height algorithm, the per-run search path. -/
theorem mode_decision_iff_integral (w l h : ℚ) (items : List (ℚ × ℚ × ℚ)) :
    (setupIsDiscrete w l h items = true ↔
      (w.den = 1 ∧ l.den = 1 ∧ h.den = 1) ∧
        ∀ b ∈ items, b.1.den = 1 ∧ b.2.1.den = 1 ∧ b.2.2.den = 1) ∧
    (envKindOf (setupIsDiscrete w l h items) = .discrete ↔
      setupIsDiscrete w l h items = true) ∧
    (runSimulationPath "corner_height" (setupIsDiscrete w l h items) =
        .cornerDiscrete ↔ setupIsDiscrete w l h items = true) ∧
    (runSimulationPath "corner_height" (setupIsDiscrete w l h items) =
        .cornerContinuous ↔ setupIsDiscrete w l h items = false) := by
  refine ⟨?_, ?_, ?_, ?_⟩
  · unfold setupIsDiscrete effectiveItemSet isIntegral
    cases items with
    | nil => simp [and_assoc]
    | cons b rest => simp [List.all_eq_true, and_assoc]
  · cases setupIsDiscrete w l h items <;> simp [envKindOf]
  · cases setupIsDiscrete w l h items <;> simp [runSimulationPath]
  · cases setupIsDiscrete w l h items <;> simp [runSimulationPath]

/-- Witness for C6: a session with an integral container and one
non-integral box runs in continuous mode. -/
theorem mode_decision_iff_integral_witness :
    setupIsDiscrete 10 10 10 [(1, 1, (⟨1, 2, by decide, by decide⟩ : ℚ))] = false ∧
    (setupIsDiscrete 10 10 10 [(1, 1, (⟨1, 2, by decide, by decide⟩ : ℚ))] = true ↔
      (((10 : ℚ)).den = 1 ∧ ((10 : ℚ)).den = 1 ∧ ((10 : ℚ)).den = 1) ∧
        ∀ b ∈ [((1 : ℚ), (1 : ℚ), (⟨1, 2, by decide, by decide⟩ : ℚ))],
          b.1.den = 1 ∧ b.2.1.den = 1 ∧ b.2.2.den = 1) :=
  ⟨by decide,
    (mode_decision_iff_integral 10 10 10
      [(1, 1, (⟨1, 2, by decide, by decide⟩ : ℚ))]).1⟩

/-- Counterexample to C8: rotation index 2 produces `(y, z, x)` — for
native extents `(1, 2, 3)` that is `(2, 3, 1)`, not the claimed
`(z, x, y) = (3, 1, 2)` — and index 5 produces `(z, x, y)`, not the
claimed `(y, z, x)`; the claimed and actual enumeration orders differ. -/
theorem rotation_order_cex :
    rotateExtents 2 ((1 : Nat), 2, 3) = (2, 3, 1) ∧
    rotateExtents 2 ((1 : Nat), 2, 3) ≠ (3, 1, 2) ∧
    rotateExtents 5 ((1 : Nat), 2, 3) = (3, 1, 2) ∧
    rotateExtents 5 ((1 : Nat), 2, 3) ≠ (2, 3, 1) ∧
    (List.range 6).map (fun rot => rotateExtents rot ((1 : Nat), 2, 3)) ≠
      [(1, 2, 3), (2, 1, 3), (3, 1, 2), (3, 2, 1), (1, 3, 2), (2, 3, 1)] := by
  decide

/-- Claim C8 as amended: rotation indices 0 through 5 produce, in order,
the permutations `(x,y,z), (y,x,z), (y,z,x), (z,y,x), (x,z,y), (z,x,y)` of
the native extents (the claimed list with the entries at indices 2 and 5
exchanged), and under the NoRotation policy (setting 1) only the identity
orientation is produced. -/
theorem rotation_order_list (nb : Dims) :
    allowedRotations 2 nb =
      [(nb.1, nb.2.1, nb.2.2), (nb.2.1, nb.1, nb.2.2), (nb.2.1, nb.2.2, nb.1),
        (nb.2.2, nb.2.1, nb.1), (nb.1, nb.2.2, nb.2.1), (nb.2.2, nb.1, nb.2.1)] ∧
    allowedRotations 1 nb = [nb] := by
  constructor
  · rfl
  · rfl

/-- Counterexample to C7: in a `6 × 6 × 1` container with box `(6, 1, 1)`,
the rotated orientation `(1, 6, 1)` at origin `(3, 0)` is inside the
claimed bounds (`3 ≤ 6 - 1`) and passes the virtual drop, yet it is not in
the candidate set, because the enumeration bounds
`range(bin_size - next_box + 1)` use the native extents. -/
theorem random_candidate_set_cex :
    (dropVirtual ⟨6, 6, 1, fun _ _ => 0, []⟩ (1, 6, 1) (3, 0)).isSome = true ∧
    (1, 6, 1) = rotateExtents 1 ((6 : Nat), 1, 1) ∧
    3 ≤ 6 - 1 ∧
    ((1, 6, 1), 3, 0) ∉ discreteCandidates ⟨6, 6, 1, fun _ _ => 0, []⟩ (6, 1, 1) 6 := by
  refine ⟨by decide, by decide, by decide, by decide⟩

/-- Claim C7 as amended: the discrete Random candidate set consists of, for
each allowed rotation and each integer origin `(lx, ly)` with
`0 ≤ lx ≤ width - x₀` and `0 ≤ ly ≤ length - y₀` where `(x₀, y₀)` are the
box's NATIVE (unrotated) extents, the rotated-extents/origin pairs that
pass the virtual drop; the placement is drawn from this candidate list by
the injected random index, and an empty candidate set is reported as no
candidate (terminal). -/
theorem random_candidate_set_characterization (sp : Space) (nb : Dims)
    (orient : Nat) (exc : Nat → Bool) (pick : Nat → Nat) :
    (∀ d lx ly, (d, lx, ly) ∈ discreteCandidates sp nb orient ↔
      ∃ rot < orient, d = rotateExtents rot nb ∧ lx < sp.W + 1 - nb.1 ∧
        ly < sp.L + 1 - nb.2.1 ∧ (dropVirtual sp d (lx, ly)).isSome = true) ∧
    (∀ idx, exc idx = false → discreteCandidates sp nb orient = [] →
      randomEval exc pick orient idx sp nb = .noCandidate) ∧
    (∀ idx sp2 pb, exc idx = false →
      randomEval exc pick orient idx sp nb = .placed sp2 pb →
      ∃ c ∈ discreteCandidates sp nb orient,
        commit sp c.1 (c.2.1, c.2.2) = some (sp2, pb)) := by
  refine ⟨?_, ?_, ?_⟩
  · intro d lx ly
    constructor
    · intro hmem
      simp only [discreteCandidates, List.mem_flatMap, List.mem_range,
        List.mem_filterMap, Option.map_eq_some'] at hmem
      obtain ⟨lx2, hlx2, ly2, hly2, rot, hrot, h2, hdrop, heq⟩ := hmem
      have hd : rotateExtents rot nb = d := congrArg Prod.fst heq
      have hlx3 : lx2 = lx := congrArg (fun t => t.2.1) heq
      have hly3 : ly2 = ly := congrArg (fun t => t.2.2) heq
      subst hd; subst hlx3; subst hly3
      exact ⟨rot, hrot, rfl, hlx2, hly2, by rw [hdrop]; rfl⟩
    · intro ⟨rot, hrot, hd, hlx, hly, hsome⟩
      simp only [discreteCandidates, List.mem_flatMap, List.mem_range,
        List.mem_filterMap, Option.map_eq_some']
      obtain ⟨h2, hdrop⟩ := Option.isSome_iff_exists.mp hsome
      exact ⟨lx, hlx, ly, hly, rot, hrot, h2, by rw [← hd]; exact hdrop, by rw [hd]⟩
  · intro idx he hn
    simp [randomEval, he, hn]
  · intro idx sp2 pb he hplaced
    unfold randomEval at hplaced
    rw [he] at hplaced
    simp only [Bool.false_eq_true, if_false] at hplaced
    cases hc : discreteCandidates sp nb orient with
    | nil => rw [hc] at hplaced; cases hplaced
    | cons c0 rest2 =>
      rw [hc] at hplaced
      simp only at hplaced
      cases hcm : commit sp ((c0 :: rest2).getD (pick idx % (c0 :: rest2).length) c0).1
          (((c0 :: rest2).getD (pick idx % (c0 :: rest2).length) c0).2.1,
           ((c0 :: rest2).getD (pick idx % (c0 :: rest2).length) c0).2.2) with
      | none => rw [hcm] at hplaced; cases hplaced
      | some pr =>
        obtain ⟨sp3, pb3⟩ := pr
        rw [hcm] at hplaced
        injection hplaced with h1 h2
        subst h1; subst h2
        have hlen : pick idx % (c0 :: rest2).length < (c0 :: rest2).length :=
          Nat.mod_lt _ (by simp)
        refine ⟨(c0 :: rest2).getD (pick idx % (c0 :: rest2).length) c0, ?_, hcm⟩
        rw [List.getD_eq_getElem (c0 :: rest2) c0 hlen]
        exact List.getElem_mem hlen

/-- Witness for C7's amended claim: the in-bounds orientation/origin pair
`((1, 6, 1), 0, 0)` is a candidate, while `((1, 6, 1), 3, 0)` — which
would need `lx = 3 > 6 - 6` — satisfies the drop but not the native
bound. -/
theorem random_candidate_set_characterization_witness :
    (((1, 6, 1), 0, 0) ∈
      discreteCandidates ⟨6, 6, 1, fun _ _ => 0, []⟩ (6, 1, 1) 6 ↔
      ∃ rot < 6, ((1 : Nat), 6, 1) = rotateExtents rot (6, 1, 1) ∧
        (0 : Nat) < 6 + 1 - 6 ∧ (0 : Nat) < 6 + 1 - 1 ∧
        (dropVirtual ⟨6, 6, 1, fun _ _ => 0, []⟩ (1, 6, 1) (0, 0)).isSome = true) ∧
    (((1, 6, 1), 0, 0) ∈
      discreteCandidates ⟨6, 6, 1, fun _ _ => 0, []⟩ (6, 1, 1) 6) :=
  ⟨(random_candidate_set_characterization ⟨6, 6, 1, fun _ _ => 0, []⟩ (6, 1, 1) 6
      (fun _ => false) (fun _ => 0)).1 (1, 6, 1) 0 0,
    by decide⟩

/-- Counterexample to C9: with the spec's corner generator output for an
empty `10 × 10 × 10` container — the origin corner anchoring the whole free
volume `(0, 0, 0, 10, 10, 10)` — the corner-height loop packs a native
`(2, 2, 2)` box with recorded dimensions `(10, 10, 10)`, which is not a
permutation of its extents under any of the 6 orientations. -/
theorem corner_height_dims_cex :
    (runCornerHeightLoop (fun sp => [⟨0, 0, 0, sp.W, sp.L, sp.H⟩])
        (fun _ => false) [⟨0, (2, 2, 2)⟩] ⟨10, 10, 10, fun _ _ => 0, []⟩).1 =
      [⟨0, true, some (0, 0, 0), (10, 10, 10)⟩] ∧
    (10, 10, 10) ∉ allowedRotations 2 (2, 2, 2) ∧
    (10, 10, 10) ∉ allowedRotations 1 (2, 2, 2) := by
  refine ⟨by decide, by decide, by decide⟩

/-- Claim C9 as amended: on the CornerHeight path every record marked
packed has dimensions equal to the spans `(xe - xs, ye - ys, ze - zs)` of
some corner produced by the generator; the loop applies no clipping to the
box's own extents and no permutation check, so the dimensions are a
permutation of the native extents only when the generator supplies
orientation-sized corners. -/
theorem corner_height_dims_are_spans (gen : Space → List Corner)
    (exc : Nat → Bool) :
    ∀ (bs : List SBox) (idx fuel : Nat) (sp : Space) (r : BoxResult),
      r ∈ (engineLoopAux (cornerEval gen exc) idx fuel sp bs).1 →
      r.isPacked = true →
      ∃ sp2 c, c ∈ gen sp2 ∧ r.dims = spans c := by
  intro bs
  induction bs with
  | nil =>
    intro idx fuel sp r hr
    cases fuel <;> simp [engineLoopAux] at hr
  | cons b rest ih =>
    intro idx fuel sp r hr hp
    cases fuel with
    | zero =>
      simp only [engineLoopAux] at hr
      obtain ⟨b2, _, rfl⟩ := List.mem_map.mp hr
      simp [mkUnpacked] at hp
    | succ f =>
      simp only [engineLoopAux] at hr
      cases heval : cornerEval gen exc idx sp b.dims with
      | err =>
        rw [heval] at hr
        rcases List.mem_cons.mp hr with rfl | hr2
        · simp [mkUnpacked] at hp
        · exact ih (idx + 1) f sp r hr2 hp
      | noCandidate =>
        rw [heval] at hr
        rcases List.mem_cons.mp hr with rfl | hr2
        · simp [mkUnpacked] at hp
        · obtain ⟨b2, _, rfl⟩ := List.mem_map.mp hr2
          simp [mkUnpacked] at hp
      | placed sp3 pb =>
        rw [heval] at hr
        rcases List.mem_cons.mp hr with rfl | hr2
        · unfold cornerEval at heval
          cases hexc : exc idx with
          | true => rw [hexc] at heval; cases heval
          | false =>
            rw [hexc] at heval
            simp only [Bool.false_eq_true, if_false] at heval
            cases hsel : selectBest sp (gen sp) with
            | none => rw [hsel] at heval; cases heval
            | some ch =>
              obtain ⟨d, px, py⟩ := ch
              rw [hsel] at heval
              simp only [] at heval
              cases hcm : commit sp d (px, py) with
              | none => rw [hcm] at heval; cases heval
              | some pr =>
                obtain ⟨sp4, pb4⟩ := pr
                rw [hcm] at heval
                injection heval with h1 h2
                subst h1; subst h2
                obtain ⟨c, hcmem, hd, _, _, _⟩ := selectBest_mem hsel
                refine ⟨sp, c, hcmem, ?_⟩
                have hdims := commit_dims hcm
                rw [← hd]
                exact hdims
        · exact ih (idx + 1) f sp3 r hr2 hp
      | stepFailed =>
        rw [heval] at hr
        rcases List.mem_cons.mp hr with rfl | hr2
        · simp [mkUnpacked] at hp
        · exact ih (idx + 1) f sp r hr2 hp

/-- Witness for C9's amended claim, applied to the counterexample run: the
recorded dims `(10, 10, 10)` are the spans of the generator corner. -/
theorem corner_height_dims_are_spans_witness :
    ∃ sp2 c, c ∈ (fun sp : Space => [(⟨0, 0, 0, sp.W, sp.L, sp.H⟩ : Corner)]) sp2 ∧
      (⟨0, true, some (0, 0, 0), (10, 10, 10)⟩ : BoxResult).dims = spans c :=
  corner_height_dims_are_spans (fun sp => [⟨0, 0, 0, sp.W, sp.L, sp.H⟩])
    (fun _ => false) [⟨0, (2, 2, 2)⟩] 0 (min [(⟨0, (2, 2, 2)⟩ : SBox)].length 50)
    ⟨10, 10, 10, fun _ _ => 0, []⟩ ⟨0, true, some (0, 0, 0), (10, 10, 10)⟩
    (by decide) (by decide)

/-- Claim C10: the continuous Random path skips any sampled orientation
whose rotated x extent reaches the container width or whose rotated y
extent reaches the container length (the `max_lx <= 0 or max_ly <= 0`
guard fires instead of sampling the origin), so a box exactly filling the
footprint on x or y yields no candidate in that orientation even when
placement at the origin would be feasible. -/
theorem continuous_exact_fit_skipped (sp : QSpace) (nb : ℚ × ℚ × ℚ) (rot : Nat)
    (h : sp.W ≤ (rotateExtents rot nb).1 ∨ sp.L ≤ (rotateExtents rot nb).2.1) :
    (∀ u v, contSampleCandidate sp nb rot u v = none) ∧
    ((rotateExtents rot nb).1 ≤ sp.W → (rotateExtents rot nb).2.1 ≤ sp.L →
      maxUnderQ sp 0 0 (rotateExtents rot nb).1 (rotateExtents rot nb).2.1 +
        (rotateExtents rot nb).2.2 ≤ sp.H →
      dropVirtualQ sp (rotateExtents rot nb) (0, 0) = true) := by
  constructor
  · intro u v
    unfold contSampleCandidate
    rw [if_pos]
    rcases h with h | h
    · left; rw [max_le_iff]; exact ⟨le_refl 0, by linarith⟩
    · right; rw [max_le_iff]; exact ⟨le_refl 0, by linarith⟩
  · intro h1 h2 h3
    unfold dropVirtualQ
    simp only [decide_eq_true_eq]
    exact ⟨le_refl 0, le_refl 0, by simpa using h1, by simpa using h2, h3⟩

/-- Witness for C10: a `(2, 1, 1)` box in a `2 × 3 × 4` container fits at
the origin but the sampling loop produces no candidate for the identity
orientation. -/
theorem continuous_exact_fit_skipped_witness :
    contSampleCandidate ⟨2, 3, 4, []⟩ (2, 1, 1) 0 1 1 = none ∧
    dropVirtualQ ⟨2, 3, 4, []⟩ (rotateExtents 0 ((2 : ℚ), 1, 1)) (0, 0) = true :=
  ⟨(continuous_exact_fit_skipped ⟨2, 3, 4, []⟩ (2, 1, 1) 0
      (Or.inl (by norm_num [rotateExtents]))).1 1 1,
    (continuous_exact_fit_skipped ⟨2, 3, 4, []⟩ (2, 1, 1) 0
      (Or.inl (by norm_num [rotateExtents]))).2
      (by norm_num [rotateExtents]) (by norm_num [rotateExtents])
      (by norm_num [rotateExtents, maxUnderQ])⟩

end PalletPacking
